import Mathlib

/-!
Verification development for the RecruitIQ frontend data model and components.

The definitions below are shallow embeddings of the TypeScript sources:
the API model declarations (models.ts), the CandidateTable, FileUpload,
CandidateDetailSheet and EvaluationCard components, and the dashboard
statistics of UploadResumes.tsx.  Backend pieces that are described by the
specification but whose code is not among the given sources (the Celery
pipeline orchestrator and the evaluation-creation step) are modelled from
the specification and marked as such in their doc comments.
-/

namespace ApiModels

/-- Status union of the Candidate interface in the API models file:
`status: 'pending' | 'processing' | 'completed' | 'error'`. -/
inductive CandidateStatus
  | pending
  | processing
  | completed
  | error
deriving DecidableEq, Repr

/-- The literal string carried by each member of the Candidate status union. -/
def CandidateStatus.toString : CandidateStatus → String
  | .pending => "pending"
  | .processing => "processing"
  | .completed => "completed"
  | .error => "error"

/-- Recommendation union of the Evaluation interface:
`recommendation: 'interview' | 'decline'`. -/
inductive Recommendation
  | interview
  | decline
deriving DecidableEq, Repr

/-- The literal string carried by each member of the recommendation union. -/
def Recommendation.toString : Recommendation → String
  | .interview => "interview"
  | .decline => "decline"

/-- Decision union of the StakeholderFeedback interface in the API models
file: `decision: 'interview' | 'decline' | 'pending'`. -/
inductive FeedbackDecision
  | interview
  | decline
  | pending
deriving DecidableEq, Repr

/-- The literal string carried by each member of the decision union. -/
def FeedbackDecision.toString : FeedbackDecision → String
  | .interview => "interview"
  | .decline => "decline"
  | .pending => "pending"

/-- JobDescription interface of the API models file. -/
structure JobDescription where
  id : Nat
  title : String
  description : String
  requirements : Option String
  is_active : Bool
  created : String
  modified : String
deriving DecidableEq, Repr

/-- Evaluation interface of the API models file.  Scores are JavaScript
numbers, embedded as rationals. -/
structure Evaluation where
  id : Nat
  overall_score : ℚ
  resume_score : ℚ
  github_score : Option ℚ
  linkedin_score : Option ℚ
  ai_summary : String
  recommendation : Recommendation
  generated_report : Option String
  candidate : Nat
  created : String
  modified : String
deriving DecidableEq, Repr

/-- StakeholderFeedback interface of the API models file. -/
structure StakeholderFeedback where
  id : Nat
  comments : String
  decision : FeedbackDecision
  evaluation : Nat
  stakeholder : Nat
  created : String
  modified : String
deriving DecidableEq, Repr

/-- One item of the audit_log array of the Candidate interface. -/
structure AuditLogItem where
  step : String
  timestamp : String
deriving DecidableEq, Repr

/-- Resume interface of the API models file. -/
structure Resume where
  id : Nat
  file : String
  original_filename : String
  file_type : String
  extracted_text : Option String
  candidate : Nat
  created : String
  modified : String
deriving DecidableEq, Repr

/-- Candidate interface of the API models file.  The evaluation field is a
single optional nested Evaluation: a candidate carries zero or one
evaluations by construction. -/
structure Candidate where
  id : Nat
  name : String
  email : String
  phone : Option String
  linkedin_url : Option String
  github_url : Option String
  status : CandidateStatus
  celery_task_id : Option String
  error_message : Option String
  audit_log : List AuditLogItem
  job_description : JobDescription
  submitted_by : Nat
  created : String
  modified : String
  resume : Option Resume
  evaluation : Option Evaluation
deriving DecidableEq, Repr

/-- Number of evaluations associated with a candidate (the optional nested
evaluation field, counted). -/
def evaluationCount (c : Candidate) : Nat :=
  c.evaluation.toList.length

/-- Modelled from the spec: the backend step that records the result of the
AI-evaluate stage on a candidate is part of the Celery pipeline, which is not
among the given sources.  Per the spec, an Evaluation is created at most once
per candidate and only by the AI-evaluate stage succeeding, so attaching an
evaluation to a candidate that already has one is a conflict, never an
overwrite. -/
def attachEvaluation (c : Candidate) (e : Evaluation) : Except String Candidate :=
  match c.evaluation with
  | some _ => Except.error "conflict"
  | none => Except.ok { c with evaluation := some e }

end ApiModels

/-- The lifecycle state set named by the specification for the candidate
state machine. -/
def specLifecycleStates : List String :=
  ["Submitted", "ParsingResume", "DetectingProfile", "FetchingProfileData",
   "Evaluating", "GeneratingReport", "Notifying", "Completed", "Failed"]

namespace CandidateTable

/-- Status union of the Candidate interface declared inside
CandidateTable.tsx:
`status: 'pending' | 'processing' | 'completed' | 'failed' | 'processed' | 'rejected'`. -/
inductive Status
  | pending
  | processing
  | completed
  | failed
  | processed
  | rejected
deriving DecidableEq, Repr

/-- The literal string carried by each member of the table status union. -/
def Status.toString : Status → String
  | .pending => "pending"
  | .processing => "processing"
  | .completed => "completed"
  | .failed => "failed"
  | .processed => "processed"
  | .rejected => "rejected"

/-- The action buttons a candidate row can render. -/
inductive Action
  | viewDetails
  | reprocess
deriving DecidableEq, Repr

/-- Actions cell of a candidate row in CandidateTable.tsx: the view-details
button always renders; the reprocess button renders exactly under the guard
`onReprocess && candidate.status === 'failed'`. -/
def rowActions (onReprocessSupplied : Bool) (status : Status) : List Action :=
  [Action.viewDetails] ++
    (if onReprocessSupplied && (status == Status.failed) then [Action.reprocess] else [])

/-- getScoreBadge of CandidateTable.tsx: variant starts as secondary, becomes
default when the score is at least 7, destructive when below 5. -/
def getScoreBadgeVariant (score : ℚ) : String :=
  if score ≥ 7 then "default" else if score < 5 then "destructive" else "secondary"

end CandidateTable

namespace EvaluationCard

/-- getScoreColor of EvaluationCard.tsx: green from 7 up, yellow from 5 up,
red below 5. -/
def getScoreColor (score : ℚ) : String :=
  if score ≥ 7 then "text-green-600" else if score ≥ 5 then "text-yellow-600" else "text-red-600"

/-- The variant and visible label of a rendered badge. -/
structure BadgeView where
  variant : String
  label : String
deriving DecidableEq, Repr

/-- Recommendation badge of EvaluationCard.tsx: variant is default for
interview and destructive otherwise; the label is Interview exactly for the
interview recommendation and Decline otherwise. -/
def recommendationBadge (r : ApiModels.Recommendation) : BadgeView :=
  { variant := if r == ApiModels.Recommendation.interview then "default" else "destructive"
  , label := if r == ApiModels.Recommendation.interview then "Interview" else "Decline" }

/-- Maps the score colour class of EvaluationCard.tsx to the badge variant of
CandidateTable.tsx carrying the same meaning; used to state that the two
components implement the same three-way classification. -/
def colorToVariant : String → String
  | "text-green-600" => "default"
  | "text-red-600" => "destructive"
  | "text-yellow-600" => "secondary"
  | _ => "outline"

end EvaluationCard

/-- Claim C1: the reprocess action is offered for a rendered candidate row if
and only if an onReprocess handler is supplied and the candidate status is
failed; in any other status, or with no handler, no reprocess action is
rendered. -/
theorem C1_reprocess_only_from_failed (s : CandidateTable.Status) :
    (CandidateTable.Action.reprocess ∈ CandidateTable.rowActions true s ↔
      s = CandidateTable.Status.failed) ∧
    CandidateTable.Action.reprocess ∉ CandidateTable.rowActions false s := by
  cases s <;> exact ⟨by decide, by decide⟩

/-- Claim C2, counterexample: the code violates the claim.  A candidate with
status pending is a perfectly formed Candidate value of the API model, yet
the string pending is not among the nine lifecycle states named by the
specification. -/
theorem C2_counterexample :
    ApiModels.CandidateStatus.toString ApiModels.CandidateStatus.pending ∉
      specLifecycleStates := by
  decide

/-- Claim C2, amended: every Candidate status is drawn from the code status
sets, namely pending, processing, completed, error in the API model and
pending, processing, completed, failed, processed, rejected in the
CandidateTable component; none of these strings belongs to the lifecycle
state set given by the specification. -/
theorem C2_amended_status_sets :
    (∀ s : ApiModels.CandidateStatus,
      s.toString ∈ ["pending", "processing", "completed", "error"]) ∧
    (∀ s : CandidateTable.Status,
      s.toString ∈ ["pending", "processing", "completed", "failed", "processed", "rejected"]) ∧
    (∀ s : ApiModels.CandidateStatus, s.toString ∉ specLifecycleStates) ∧
    (∀ s : CandidateTable.Status, s.toString ∉ specLifecycleStates) := by
  refine ⟨fun s => ?_, fun s => ?_, fun s => ?_, fun s => ?_⟩ <;> cases s <;> decide

/-- Claim C4, counterexample: the code violates the claim.  The decision
value pending is representable in the StakeholderFeedback interface but is
not among the three values the claim allows; moreover comment-only is not
the string of any representable decision. -/
theorem C4_counterexample :
    ApiModels.FeedbackDecision.toString ApiModels.FeedbackDecision.pending ∉
      ["interview", "decline", "comment-only"] ∧
    (∀ d : ApiModels.FeedbackDecision, d.toString ≠ "comment-only") := by
  refine ⟨by decide, fun d => ?_⟩
  cases d <;> decide

/-- Claim C4, amended: every StakeholderFeedback decision is exactly one of
interview, decline, or pending; each of the three is representable, and
comment-only is not representable. -/
theorem C4_amended_decision_set :
    (∀ d : ApiModels.FeedbackDecision,
      d.toString ∈ ["interview", "decline", "pending"]) ∧
    (∃ d : ApiModels.FeedbackDecision, d.toString = "interview") ∧
    (∃ d : ApiModels.FeedbackDecision, d.toString = "decline") ∧
    (∃ d : ApiModels.FeedbackDecision, d.toString = "pending") ∧
    ¬ (∃ d : ApiModels.FeedbackDecision, d.toString = "comment-only") := by
  refine ⟨fun d => ?_, ⟨.interview, rfl⟩, ⟨.decline, rfl⟩, ⟨.pending, rfl⟩, ?_⟩
  · cases d <;> decide
  · rintro ⟨d, hd⟩
    cases d <;> exact absurd hd (by decide)

/-- Claim C5: every recommendation is interview or decline, and the
EvaluationCard badge is faithful to it: the Interview label and the default
variant appear exactly for the interview recommendation, the Decline label
and the destructive variant exactly for decline. -/
theorem C5_recommendation_badge_faithful (r : ApiModels.Recommendation) :
    (r = ApiModels.Recommendation.interview ∨ r = ApiModels.Recommendation.decline) ∧
    ((EvaluationCard.recommendationBadge r).label = "Interview" ↔
      r = ApiModels.Recommendation.interview) ∧
    ((EvaluationCard.recommendationBadge r).label = "Decline" ↔
      r = ApiModels.Recommendation.decline) ∧
    ((EvaluationCard.recommendationBadge r).variant = "default" ↔
      r = ApiModels.Recommendation.interview) ∧
    ((EvaluationCard.recommendationBadge r).variant = "destructive" ↔
      r = ApiModels.Recommendation.decline) := by
  cases r <;> exact ⟨by decide, by decide, by decide, by decide, by decide⟩

/-- Claim C9: the table score badge and the evaluation card score colour
implement the same three-way classification: the badge variant is exactly the
image of the colour under the meaning-preserving correspondence, with default
and green from 7 up, destructive and red below 5, secondary and yellow in
between. -/
theorem C9_score_classifications_agree (s : ℚ) :
    CandidateTable.getScoreBadgeVariant s =
      EvaluationCard.colorToVariant (EvaluationCard.getScoreColor s) ∧
    (CandidateTable.getScoreBadgeVariant s = "default" ↔ 7 ≤ s) ∧
    (CandidateTable.getScoreBadgeVariant s = "destructive" ↔ s < 5) ∧
    (CandidateTable.getScoreBadgeVariant s = "secondary" ↔ 5 ≤ s ∧ s < 7) := by
  by_cases h7 : (7 : ℚ) ≤ s
  · have h5 : ¬ s < 5 := by linarith
    have hb : CandidateTable.getScoreBadgeVariant s = "default" := by
      simp [CandidateTable.getScoreBadgeVariant, h7]
    have hc : EvaluationCard.getScoreColor s = "text-green-600" := by
      simp [EvaluationCard.getScoreColor, h7]
    rw [hb, hc]
    exact ⟨by decide, iff_of_true rfl h7, iff_of_false (by decide) h5,
      iff_of_false (by decide) (by rintro ⟨_, hlt⟩; linarith)⟩
  · by_cases h5 : s < 5
    · have hy : ¬ (5 : ℚ) ≤ s := by linarith
      have hb : CandidateTable.getScoreBadgeVariant s = "destructive" := by
        simp [CandidateTable.getScoreBadgeVariant, h7, h5]
      have hc : EvaluationCard.getScoreColor s = "text-red-600" := by
        simp [EvaluationCard.getScoreColor, h7, hy]
      rw [hb, hc]
      exact ⟨by decide, iff_of_false (by decide) h7, iff_of_true rfl h5,
        iff_of_false (by decide) (by rintro ⟨hge, _⟩; linarith)⟩
    · have hy : (5 : ℚ) ≤ s := by linarith
      have hlt7 : s < 7 := by
        by_contra hcon
        exact h7 (by linarith)
      have hb : CandidateTable.getScoreBadgeVariant s = "secondary" := by
        simp [CandidateTable.getScoreBadgeVariant, h7, h5]
      have hc : EvaluationCard.getScoreColor s = "text-yellow-600" := by
        simp [EvaluationCard.getScoreColor, h7, hy]
      rw [hb, hc]
      exact ⟨by decide, iff_of_false (by decide) h7, iff_of_false (by decide) h5,
        iff_of_true rfl ⟨hy, hlt7⟩⟩

namespace ApiModels

/-- A concrete job description, used to evaluate the claim theorems on
explicit inputs. -/
def sampleJob : JobDescription :=
  { id := 1, title := "Engineer", description := "Builds things"
  , requirements := none, is_active := true
  , created := "2024-01-01", modified := "2024-01-01" }

/-- A concrete evaluation, used to evaluate the claim theorems on explicit
inputs. -/
def sampleEvaluation : Evaluation :=
  { id := 7, overall_score := 8, resume_score := 8, github_score := none
  , linkedin_score := none, ai_summary := "strong"
  , recommendation := Recommendation.interview, generated_report := none
  , candidate := 3, created := "2024-01-02", modified := "2024-01-02" }

/-- A concrete candidate without an evaluation. -/
def sampleCandidate : Candidate :=
  { id := 3, name := "Ada", email := "ada@example.com", phone := none
  , linkedin_url := none, github_url := none
  , status := CandidateStatus.pending, celery_task_id := none
  , error_message := none, audit_log := [], job_description := sampleJob
  , submitted_by := 1, created := "2024-01-01", modified := "2024-01-01"
  , resume := none, evaluation := none }

/-- A concrete candidate that already carries an evaluation. -/
def sampleEvaluated : Candidate :=
  { sampleCandidate with
      status := CandidateStatus.completed, evaluation := some sampleEvaluation }

end ApiModels

/-- Claim C3: a candidate carries zero or one evaluations, a successful
attach happens only on a candidate that had none and leaves it with exactly
one, and attaching to a candidate that already has an evaluation is a
conflict, so no operation can associate a second evaluation with the same
candidate. -/
theorem C3_at_most_one_evaluation (c : ApiModels.Candidate) (e : ApiModels.Evaluation) :
    ApiModels.evaluationCount c ≤ 1 ∧
    (∀ c2, ApiModels.attachEvaluation c e = Except.ok c2 →
      c.evaluation = none ∧ c2.evaluation = some e ∧ ApiModels.evaluationCount c2 = 1) ∧
    (∀ e0, c.evaluation = some e0 →
      ApiModels.attachEvaluation c e = Except.error "conflict") := by
  cases h : c.evaluation with
  | none =>
    refine ⟨by simp [ApiModels.evaluationCount, h], fun c2 hok => ?_, fun e0 he0 => ?_⟩
    · rw [ApiModels.attachEvaluation, h] at hok
      cases hok
      exact ⟨rfl, rfl, rfl⟩
    · exact Option.noConfusion he0
  | some e1 =>
    refine ⟨by simp [ApiModels.evaluationCount, h], fun c2 hok => ?_, fun e0 he0 => ?_⟩
    · rw [ApiModels.attachEvaluation, h] at hok
      cases hok
    · rw [ApiModels.attachEvaluation, h]

/-- Claim C3, witness: the at-most-one-evaluation theorem evaluated on
concrete candidates, once on a candidate without an evaluation and once on a
candidate that already has one. -/
theorem C3_at_most_one_evaluation_evaluated :
    ApiModels.sampleCandidate.evaluation = none ∧
    ({ ApiModels.sampleCandidate with
        evaluation := some ApiModels.sampleEvaluation : ApiModels.Candidate }).evaluation =
      some ApiModels.sampleEvaluation ∧
    ApiModels.evaluationCount
      { ApiModels.sampleCandidate with
          evaluation := some ApiModels.sampleEvaluation } = 1 ∧
    ApiModels.attachEvaluation ApiModels.sampleEvaluated ApiModels.sampleEvaluation =
      Except.error "conflict" := by
  have h1 :=
    (C3_at_most_one_evaluation ApiModels.sampleCandidate ApiModels.sampleEvaluation).2.1
      { ApiModels.sampleCandidate with evaluation := some ApiModels.sampleEvaluation } rfl
  have h2 :=
    (C3_at_most_one_evaluation ApiModels.sampleEvaluated ApiModels.sampleEvaluation).2.2
      ApiModels.sampleEvaluation rfl
  exact ⟨h1.1, h1.2.1, h1.2.2, h2⟩

namespace CandidateDetailSheet

/-- One processing-log record as fetched by fetchData in
CandidateDetailSheet.tsx from the processing-logs endpoint. -/
structure ProcessingLog where
  id : Nat
  stage : String
  status : String
  message : Option String
  error_message : Option String
  created : String
deriving DecidableEq, Repr

/-- Replaces the first underscore of a character list by a space, mirroring
the single-occurrence semantics of the JavaScript string replace with a
string pattern. -/
def replaceFirstUnderscoreAux : List Char → List Char
  | [] => []
  | c :: cs => if c = '_' then ' ' :: cs else c :: replaceFirstUnderscoreAux cs

/-- The displayed stage label: the stage name with its first underscore
replaced by a space, as in the JSX expression rendering the stage. -/
def displayStage (s : String) : String :=
  ⟨replaceFirstUnderscoreAux s.data⟩

/-- The visible content of one rendered audit-trail entry: stage label,
status badge text, optional message line, optional error line, and the
created timestamp. -/
structure AuditEntryView where
  stageLabel : String
  statusLabel : String
  messageLine : Option String
  errorLine : Option String
  timestamp : String
deriving DecidableEq, Repr

/-- The rendering of one processing-log record inside renderAuditTrail: the
stage with its first underscore spaced, the status, the message when present,
the error message prefixed when present, and the created timestamp. -/
def renderLogItem (log : ProcessingLog) : AuditEntryView :=
  { stageLabel := displayStage log.stage
  , statusLabel := log.status
  , messageLine := log.message
  , errorLine := log.error_message.map (fun m => "Error: " ++ m)
  , timestamp := log.created }

/-- What renderAuditTrail produces: either the empty-state message or the
list of rendered entries. -/
inductive AuditTrailView
  | noEvents (text : String)
  | entries (items : List AuditEntryView)
deriving DecidableEq, Repr

/-- renderAuditTrail of CandidateDetailSheet.tsx: the empty-state paragraph
when the fetched log list is empty, otherwise one rendered entry per record
in list order. -/
def renderAuditTrail (logs : List ProcessingLog) : AuditTrailView :=
  if logs.length = 0 then AuditTrailView.noEvents "No processing events recorded yet."
  else AuditTrailView.entries (logs.map renderLogItem)

/-- A concrete processing-log record used to evaluate the audit-trail
theorem. -/
def sampleLog : ProcessingLog :=
  { id := 1, stage := "resume_parsing", status := "success"
  , message := some "parsed", error_message := some "boom"
  , created := "2024-01-03" }

end CandidateDetailSheet

/-- Claim C6: the audit-trail view presents the full chronological history:
an empty fetched list renders the no-events message; a non-empty list
renders exactly one entry per record, in list order, each entry showing that
record's stage, status, created timestamp, and its message and error detail
when present. -/
theorem C6_audit_trail_full_history (logs : List CandidateDetailSheet.ProcessingLog) :
    (logs = [] →
      CandidateDetailSheet.renderAuditTrail logs =
        CandidateDetailSheet.AuditTrailView.noEvents "No processing events recorded yet.") ∧
    (logs ≠ [] →
      ∃ items,
        CandidateDetailSheet.renderAuditTrail logs =
          CandidateDetailSheet.AuditTrailView.entries items ∧
        items.length = logs.length ∧
        ∀ i, i < logs.length →
          ∃ log entry, logs[i]? = some log ∧ items[i]? = some entry ∧
            entry.stageLabel = CandidateDetailSheet.displayStage log.stage ∧
            entry.statusLabel = log.status ∧
            entry.timestamp = log.created ∧
            entry.messageLine = log.message ∧
            entry.errorLine = log.error_message.map (fun m => "Error: " ++ m)) := by
  constructor
  · rintro rfl
    rfl
  · intro h
    have hl : ¬ logs.length = 0 := by
      simpa [List.length_eq_zero] using h
    refine ⟨logs.map CandidateDetailSheet.renderLogItem, ?_, by simp, ?_⟩
    · rw [CandidateDetailSheet.renderAuditTrail, if_neg hl]
    · intro i hi
      refine ⟨logs[i], CandidateDetailSheet.renderLogItem logs[i], ?_, ?_, rfl, rfl, rfl, rfl, rfl⟩
      · exact List.getElem?_eq_getElem hi
      · rw [List.getElem?_map, List.getElem?_eq_getElem hi]
        rfl

/-- Claim C6, witness: the audit-trail theorem evaluated on the empty list
and on a concrete one-record list. -/
theorem C6_audit_trail_evaluated :
    CandidateDetailSheet.renderAuditTrail [] =
      CandidateDetailSheet.AuditTrailView.noEvents "No processing events recorded yet." ∧
    ∃ items,
      CandidateDetailSheet.renderAuditTrail [CandidateDetailSheet.sampleLog] =
        CandidateDetailSheet.AuditTrailView.entries items ∧
      items.length = 1 := by
  obtain ⟨items, hit, hlen, _⟩ :=
    (C6_audit_trail_full_history [CandidateDetailSheet.sampleLog]).2 (by simp)
  exact ⟨(C6_audit_trail_full_history []).1 rfl, items, hit, by simpa using hlen⟩

namespace FileUpload

/-- onDrop of FileUpload.tsx: the newly accepted files are appended after the
previously selected ones and the result is truncated to the first maxFiles
entries, exactly the spread-and-slice expression of the source. -/
def onDrop {α : Type} (maxFiles : Nat) (selectedFiles acceptedFiles : List α) : List α :=
  (selectedFiles ++ acceptedFiles).take maxFiles

/-- Index-aware filter, mirroring the JavaScript array filter whose callback
receives the element index; the first argument tells which indices to keep
and the numeric argument is the index of the head of the remaining list. -/
def keepIdxFrom {α : Type} (keep : Nat → Bool) : Nat → List α → List α
  | _, [] => []
  | i, a :: as =>
    if keep i then a :: keepIdxFrom keep (i + 1) as else keepIdxFrom keep (i + 1) as

/-- removeFile of FileUpload.tsx: keeps every selected file whose index
differs from the removed one, via the index-aware filter. -/
def removeFile {α : Type} (selectedFiles : List α) (index : Nat) : List α :=
  keepIdxFrom (fun i => i != index) 0 selectedFiles

/-- One user interaction with the file-selection state: a dropzone drop of
accepted files, or a click on the remove button of one entry. -/
inductive FileOp (α : Type)
  | dropFiles (accepted : List α)
  | removeAt (index : Nat)

/-- The state update performed by one interaction. -/
def applyOp {α : Type} (maxFiles : Nat) (s : List α) : FileOp α → List α
  | FileOp.dropFiles accepted => onDrop maxFiles s accepted
  | FileOp.removeAt i => removeFile s i

/-- The selected-files state after a sequence of interactions, starting from
the initial empty selection of the useState hook. -/
def selectionAfter {α : Type} (maxFiles : Nat) (ops : List (FileOp α)) : List α :=
  ops.foldl (applyOp maxFiles) []

theorem keepIdxFrom_length_le {α : Type} (keep : Nat → Bool) :
    ∀ (n : Nat) (s : List α), (keepIdxFrom keep n s).length ≤ s.length := by
  intro n s
  induction s generalizing n with
  | nil => exact Nat.le_refl 0
  | cons a as ih =>
    rw [keepIdxFrom]
    by_cases h : keep n
    · simpa [h] using Nat.succ_le_succ (ih (n + 1))
    · simp only [h, if_false]
      exact Nat.le_succ_of_le (ih (n + 1))

theorem keepIdxFrom_past_target {α : Type} (k : Nat) :
    ∀ (t : List α) (m : Nat), k < m → keepIdxFrom (fun i => i != k) m t = t := by
  intro t
  induction t with
  | nil => intro m _; rfl
  | cons b bs ihb =>
    intro m hk
    have hm : (m != k) = true := by
      simp [Nat.ne_of_gt hk]
    rw [keepIdxFrom, if_pos hm, ihb (m + 1) (Nat.lt_succ_of_lt hk)]

theorem keepIdxFrom_ne_eq_take_drop {α : Type} (s : List α) :
    ∀ (n j : Nat),
      keepIdxFrom (fun i => i != (n + j)) n s = s.take j ++ s.drop (j + 1) := by
  induction s with
  | nil => intro n j; simp [keepIdxFrom]
  | cons a as ih =>
    intro n j
    cases j with
    | zero =>
      have hn : ¬ ((n != n + 0) = true) := by simp
      rw [keepIdxFrom, if_neg hn]
      simpa using keepIdxFrom_past_target (n + 0) as (n + 1) (by omega)
    | succ k =>
      have hn : (n != n + (k + 1)) = true := by
        simp
      have harg : n + (k + 1) = (n + 1) + k := by omega
      rw [keepIdxFrom, if_pos hn, harg, ih (n + 1) k]
      simp

theorem removeFile_eq_take_drop {α : Type} (s : List α) (i : Nat) :
    removeFile s i = s.take i ++ s.drop (i + 1) := by
  have h := keepIdxFrom_ne_eq_take_drop s 0 i
  simpa [removeFile] using h

theorem selection_length_le {α : Type} (maxFiles : Nat) (s : List α)
    (ops : List (FileOp α)) (hs : s.length ≤ maxFiles) :
    (ops.foldl (applyOp maxFiles) s).length ≤ maxFiles := by
  induction ops generalizing s with
  | nil => simpa using hs
  | cons op rest ih =>
    rw [List.foldl_cons]
    apply ih
    cases op with
    | dropFiles accepted =>
      simp only [applyOp, onDrop, List.length_take]
      omega
    | removeAt i =>
      exact Nat.le_trans (keepIdxFrom_length_le _ 0 s) hs

end FileUpload

/-- Claim C8: the file-selection state never exceeds maxFiles after any
sequence of drop and remove interactions; a drop appends the accepted files
after the already selected ones and truncates to the first maxFiles, keeping
the earlier entries at their positions; a remove at a valid index deletes
exactly that entry, preserving the order of every other entry. -/
theorem C8_file_selection_bounded {α : Type} (maxFiles : Nat) (ops : List (FileUpload.FileOp α))
    (s accepted : List α) (i : Nat) (hi : i < s.length) :
    (FileUpload.selectionAfter maxFiles ops).length ≤ maxFiles ∧
    (FileUpload.onDrop maxFiles s accepted).length =
      min maxFiles (s.length + accepted.length) ∧
    (∀ j, j < maxFiles →
      (FileUpload.onDrop maxFiles s accepted)[j]? = (s ++ accepted)[j]?) ∧
    FileUpload.removeFile s i = s.take i ++ s.drop (i + 1) ∧
    (FileUpload.removeFile s i).length = s.length - 1 := by
  refine ⟨FileUpload.selection_length_le maxFiles [] ops (by simp), ?_, ?_, ?_, ?_⟩
  · simp [FileUpload.onDrop]
  · intro j hj
    simp [FileUpload.onDrop, List.getElem?_take, hj]
  · exact FileUpload.removeFile_eq_take_drop s i
  · rw [FileUpload.removeFile_eq_take_drop s i]
    simp only [List.length_append, List.length_take, List.length_drop]
    omega

/-- Claim C8, witness: the file-selection theorem evaluated at capacity 2,
one drop of three files onto the empty selection, and one removal from a
two-file selection. -/
theorem C8_file_selection_evaluated :
    (FileUpload.selectionAfter 2 [FileUpload.FileOp.dropFiles [1, 2, 3]]).length ≤ 2 ∧
    FileUpload.removeFile [4, 5] 0 = [5] := by
  obtain ⟨h1, _, _, h4, _⟩ :=
    C8_file_selection_bounded 2 [FileUpload.FileOp.dropFiles [1, 2, 3]] [4, 5] [6] 0
      (by decide)
  exact ⟨h1, by simpa using h4⟩

namespace Pipeline

/-- Modelled from the spec: candidate identity for the backend pipeline,
which is not among the given sources. -/
abbrev CandidateId := Nat

/-- Modelled from the spec: the isolated per-candidate execution context
that each pipeline run owns, holding the parsed text, the fetched profile,
and the intermediate stage outputs. -/
structure ExecContext where
  parsedText : Option String
  profile : Option String
  outputs : List String
deriving DecidableEq, Repr

/-- Modelled from the spec: the joint state of all executions, one isolated
context per candidate. -/
def PipelineState := CandidateId → ExecContext

/-- Modelled from the spec: one stage execution step of one candidate; it
reads and writes only the context owned by that candidate. -/
def stageStep (ev : CandidateId × (ExecContext → ExecContext)) (st : PipelineState) :
    PipelineState :=
  fun j => if j = ev.1 then ev.2 (st ev.1) else st j

/-- Modelled from the spec: a concurrent run of many candidate pipelines is
an arbitrary interleaving of their stage steps, applied in sequence to the
joint state. -/
def runInterleaving (evs : List (CandidateId × (ExecContext → ExecContext)))
    (st : PipelineState) : PipelineState :=
  evs.foldl (fun acc ev => stageStep ev acc) st

/-- A run of the stages of a single candidate over its own context alone. -/
def runLocal (fs : List (ExecContext → ExecContext)) (c : ExecContext) : ExecContext :=
  fs.foldl (fun acc f => f acc) c

theorem runInterleaving_localises (b : CandidateId) :
    ∀ (evs : List (CandidateId × (ExecContext → ExecContext))) (st : PipelineState),
      runInterleaving evs st b =
        runLocal ((evs.filter (fun ev => ev.1 == b)).map Prod.snd) (st b) := by
  intro evs
  induction evs with
  | nil => intro st; rfl
  | cons ev rest ih =>
    intro st
    by_cases h : ev.1 = b
    · have hstep : stageStep ev st b = ev.2 (st b) := by
        simp [stageStep, h]
      have hfilter : (ev :: rest).filter (fun x => x.1 == b) =
          ev :: rest.filter (fun x => x.1 == b) := by
        simp [List.filter_cons, h]
      rw [runInterleaving, List.foldl_cons]
      rw [hfilter]
      simpa [runInterleaving, runLocal, hstep] using ih (stageStep ev st)
    · have hstep : stageStep ev st b = st b := by
        have hne : b ≠ ev.1 := fun hb => h hb.symm
        simp [stageStep, hne]
      have hfilter : (ev :: rest).filter (fun x => x.1 == b) =
          rest.filter (fun x => x.1 == b) := by
        simp [List.filter_cons, h]
      rw [runInterleaving, List.foldl_cons, hfilter]
      simpa [runInterleaving, hstep] using ih (stageStep ev st)

/-- A concrete stage function tagging its output with data of candidate A. -/
def stageOfA : ExecContext → ExecContext :=
  fun c => { c with outputs := "A-data" :: c.outputs }

/-- A concrete stage function tagging its output with data of candidate B. -/
def stageOfB : ExecContext → ExecContext :=
  fun c => { c with outputs := "B-data" :: c.outputs }

/-- The joint state in which every context is empty. -/
def emptyState : PipelineState :=
  fun _ => { parsedText := none, profile := none, outputs := [] }

end Pipeline

/-- Claim C7: data isolation across candidates in the modelled pipeline: the
final context of a candidate is fully determined by its own initial context
and its own stage steps, so for any two interleaved runs that agree on
candidate b, every stage output of every other candidate is invisible in the
context of b. -/
theorem C7_candidate_isolation
    (evs1 evs2 : List (Pipeline.CandidateId × (Pipeline.ExecContext → Pipeline.ExecContext)))
    (st1 st2 : Pipeline.PipelineState) (b : Pipeline.CandidateId)
    (hev : evs1.filter (fun ev => ev.1 == b) = evs2.filter (fun ev => ev.1 == b))
    (hst : st1 b = st2 b) :
    Pipeline.runInterleaving evs1 st1 b = Pipeline.runInterleaving evs2 st2 b := by
  rw [Pipeline.runInterleaving_localises b evs1 st1,
    Pipeline.runInterleaving_localises b evs2 st2, hev, hst]

/-- Claim C7, witness: the isolation theorem evaluated on a concrete
interleaving: the run of candidate 2 interleaved with a stage of candidate 1
yields for candidate 2 the same context as the run without candidate 1
present at all. -/
theorem C7_candidate_isolation_evaluated :
    Pipeline.runInterleaving [(1, Pipeline.stageOfA), (2, Pipeline.stageOfB)]
        Pipeline.emptyState 2 =
      Pipeline.runInterleaving [(2, Pipeline.stageOfB)] Pipeline.emptyState 2 :=
  C7_candidate_isolation [(1, Pipeline.stageOfA), (2, Pipeline.stageOfB)]
    [(2, Pipeline.stageOfB)] Pipeline.emptyState Pipeline.emptyState 2 rfl rfl

namespace Dashboard

/-- One row of the candidate list as the dashboard reads it: fetchCandidates
in UploadResumes.tsx treats each result as untyped and only compares its
status string. -/
structure ApiRow where
  status : String
deriving DecidableEq, Repr

/-- The dashboard statistics record computed by fetchCandidates. -/
structure Stats where
  total : Nat
  pending : Nat
  processing : Nat
  completed : Nat
  failed : Nat
deriving DecidableEq, Repr

/-- The counters of fetchCandidates in UploadResumes.tsx: total is the list
length, pending and processing count their own status, completed counts
completed or processed, failed counts failed or rejected. -/
def computeStats (results : List ApiRow) : Stats :=
  { total := results.length
  , pending := (results.filter (fun c => c.status == "pending")).length
  , processing := (results.filter (fun c => c.status == "processing")).length
  , completed :=
      (results.filter (fun c => c.status == "completed" || c.status == "processed")).length
  , failed :=
      (results.filter (fun c => c.status == "failed" || c.status == "rejected")).length }

/-- The status strings that contribute to one of the four dashboard
counters. -/
def countedStatuses : List String :=
  ["pending", "processing", "completed", "processed", "failed", "rejected"]

theorem bucket_split (s : String) :
    ((if s == "pending" then 1 else 0) : Nat) +
      (if s == "processing" then 1 else 0) +
      (if s == "completed" || s == "processed" then 1 else 0) +
      (if s == "failed" || s == "rejected" then 1 else 0) =
      if countedStatuses.contains s then 1 else 0 := by
  by_cases h1 : s = "pending"
  · subst h1; decide
  by_cases h2 : s = "processing"
  · subst h2; decide
  by_cases h3 : s = "completed"
  · subst h3; decide
  by_cases h4 : s = "processed"
  · subst h4; decide
  by_cases h5 : s = "failed"
  · subst h5; decide
  by_cases h6 : s = "rejected"
  · subst h6; decide
  simp [countedStatuses, h1, h2, h3, h4, h5, h6]

theorem filter_length_cons {α : Type} (p : α → Bool) (a : α) (l : List α) :
    ((a :: l).filter p).length = (if p a then 1 else 0) + (l.filter p).length := by
  by_cases h : p a <;> simp [List.filter_cons, h, Nat.add_comm]

theorem stats_sum_eq_counted (results : List ApiRow) :
    (computeStats results).pending + (computeStats results).processing +
      (computeStats results).completed + (computeStats results).failed =
      (results.filter (fun c => countedStatuses.contains c.status)).length := by
  induction results with
  | nil => rfl
  | cons r rs ih =>
    simp only [computeStats] at ih ⊢
    rw [filter_length_cons, filter_length_cons, filter_length_cons, filter_length_cons,
      filter_length_cons]
    have hb := bucket_split r.status
    omega

end Dashboard

/-- Claim C10, counterexample: the code violates the claim.  A candidate
list holding one candidate whose status is the error member of the API
status union has total one, while all four counters are zero, so the
counters do not partition the list. -/
theorem C10_counterexample :
    ¬ ((Dashboard.computeStats
          [{ status := ApiModels.CandidateStatus.toString ApiModels.CandidateStatus.error }]).pending +
        (Dashboard.computeStats
          [{ status := ApiModels.CandidateStatus.toString ApiModels.CandidateStatus.error }]).processing +
        (Dashboard.computeStats
          [{ status := ApiModels.CandidateStatus.toString ApiModels.CandidateStatus.error }]).completed +
        (Dashboard.computeStats
          [{ status := ApiModels.CandidateStatus.toString ApiModels.CandidateStatus.error }]).failed =
        (Dashboard.computeStats
          [{ status := ApiModels.CandidateStatus.toString ApiModels.CandidateStatus.error }]).total) := by
  decide

/-- Claim C10, amended: the dashboard counters partition exactly the
candidates whose status is one of the six counted values pending,
processing, completed, processed, failed, rejected: their sum equals the
number of such candidates, hence never exceeds total, and equals total
precisely when every candidate in the list has one of the six counted
statuses (a status such as error is counted in total only). -/
theorem C10_amended_stats_partition (results : List Dashboard.ApiRow) :
    (Dashboard.computeStats results).pending + (Dashboard.computeStats results).processing +
        (Dashboard.computeStats results).completed + (Dashboard.computeStats results).failed =
      (results.filter (fun c => Dashboard.countedStatuses.contains c.status)).length ∧
    (Dashboard.computeStats results).pending + (Dashboard.computeStats results).processing +
        (Dashboard.computeStats results).completed + (Dashboard.computeStats results).failed ≤
      (Dashboard.computeStats results).total ∧
    ((Dashboard.computeStats results).pending + (Dashboard.computeStats results).processing +
          (Dashboard.computeStats results).completed + (Dashboard.computeStats results).failed =
        (Dashboard.computeStats results).total ↔
      ∀ c ∈ results, Dashboard.countedStatuses.contains c.status) := by
  have hsum := Dashboard.stats_sum_eq_counted results
  have htotal : (Dashboard.computeStats results).total = results.length := rfl
  refine ⟨hsum, ?_, ?_⟩
  · rw [hsum, htotal]
    exact List.length_filter_le _ _
  · rw [hsum, htotal]
    exact List.filter_length_eq_length
